import Mathlib

/-!
Verification of the segment extractor of rust-google-translate.

The program (src/src/main.rs) contains one algorithmic function,
parse_message, a single-pass scanner over the characters of the raw
response body. We embed it shallowly: the scanner state is a structure
with the four mutable locals of the Rust function, the loop body is a
step function, and the for-loop is structural recursion over the list
of characters. The Rust unreachable arm is modelled as a panic outcome
(Option.none at the top level); the Rust break is modelled as an early
return of the accumulator.
-/

/-- The four mutable locals of parse_message: escape, ignore,
found_match and matched (the sentinel-position counter, a u8 in the
source that only ever holds values 0 to 5). -/
structure ScanState where
  escape : Bool
  ignore : Bool
  found_match : Bool
  matched : Nat
deriving DecidableEq

/-- Outcome of one iteration of the for-loop body: continue with a new
state, emitting the given characters (always none or exactly the current
one); stop (the Rust break on the full terminator); or panic (the Rust
unreachable arm). -/
inductive StepOut where
  | next (s : ScanState) (emit : List Char)
  | stop
  | panic
deriving DecidableEq

/-- The body of the for-loop of parse_message, verbatim from the source:
priority order found_match, then ignore, then backslash, then escape,
then double-quote, then plain emission. -/
def scanStep (s : ScanState) (c : Char) : StepOut :=
  if s.found_match then
    match s.matched with
    | 0 => .next ⟨s.escape, s.ignore, true, 1⟩ []
    | 1 => .next ⟨s.escape, s.ignore, false, 0⟩ []
    | _ => .panic
  else if s.ignore then
    match s.matched, c with
    | 0, ',' => .next ⟨s.escape, s.ignore, s.found_match, 1⟩ []
    | 1, ',' => .next ⟨s.escape, s.ignore, s.found_match, 2⟩ []
    | 2, ',' => .next ⟨s.escape, s.ignore, s.found_match, 3⟩ []
    | 3, '0' => .next ⟨s.escape, s.ignore, s.found_match, 4⟩ []
    | 4, ']' => .next ⟨s.escape, s.ignore, s.found_match, 5⟩ []
    | 5, ']' => .stop
    | 5, _ => .next ⟨s.escape, false, true, 0⟩ []
    | _, _ => .next ⟨s.escape, s.ignore, s.found_match, 0⟩ []
  else if c = '\\' ∧ s.escape = false then
    .next ⟨true, s.ignore, s.found_match, s.matched⟩ []
  else if s.escape then
    .next ⟨false, s.ignore, s.found_match, s.matched⟩ [c]
  else if c = '"' then
    .next ⟨s.escape, true, s.found_match, s.matched⟩ []
  else
    .next s [c]

/-- The for-loop of parse_message: run scanStep over the characters,
appending emitted characters to the accumulator. Returns none exactly
when the unreachable arm would have executed (a panic), some of the
final accumulator otherwise (normal exhaustion of the input, or the
break on the full terminator). -/
def parseLoop (s : ScanState) : List Char → List Char → Option (List Char)
  | [], acc => some acc
  | c :: rest, acc =>
    match scanStep s c with
    | .next s2 e => parseLoop s2 rest (acc ++ e)
    | .stop => some acc
    | .panic => none

/-- The initial scanner state of parse_message: all flags false, counter
zero. -/
def initState : ScanState := ⟨false, false, false, 0⟩

/-- parse_message: skip the first four characters, then run the scanner
loop, appending to the caller-supplied accumulator (the Rust translation
buffer passed by mutable reference). -/
def parse_message (input : List Char) (translation : List Char) : Option (List Char) :=
  parseLoop initState (input.drop 4) translation

/-- Reachable-state invariant of the scanner: whenever found_match is
set, the counter holds 0 or 1, so the unreachable arm of the source is
never taken. -/
def GoodState (s : ScanState) : Prop :=
  s.found_match = true → s.matched = 0 ∨ s.matched = 1

lemma goodState_init : GoodState initState := by
  intro h
  simp [initState] at h

lemma scanStep_not_panic (s : ScanState) (c : Char) (h : GoodState s) :
    scanStep s c ≠ StepOut.panic := by
  obtain ⟨e, i, f, m⟩ := s
  cases f
  · unfold scanStep
    simp only [Bool.false_eq_true, if_false]
    split
    · split <;> simp
    · split_ifs <;> simp
  · rcases h rfl with h0 | h0 <;> simp_all [scanStep]

lemma scanStep_good (s : ScanState) (c : Char) (s2 : ScanState) (e2 : List Char)
    (h : GoodState s) (hstep : scanStep s c = StepOut.next s2 e2) : GoodState s2 := by
  obtain ⟨e, i, f, m⟩ := s
  cases f
  · unfold scanStep at hstep
    simp only [Bool.false_eq_true, if_false] at hstep
    split at hstep
    · split at hstep
      all_goals first
        | exact StepOut.noConfusion hstep
        | (injection hstep with h1 h2; subst h1; intro hf;
           first
             | exact (Bool.false_ne_true hf).elim
             | exact Or.inl rfl)
    · split_ifs at hstep
      all_goals injection hstep with h1 h2
      all_goals subst h1
      all_goals intro hf
      all_goals exact (Bool.false_ne_true hf).elim
  · rcases h rfl with h0 | h0 <;> subst h0
    · rw [show scanStep ⟨e, i, true, 0⟩ c = StepOut.next ⟨e, i, true, 1⟩ [] from rfl] at hstep
      injection hstep with h1 h2
      subst h1
      intro hf
      exact Or.inr rfl
    · rw [show scanStep ⟨e, i, true, 1⟩ c = StepOut.next ⟨e, i, false, 0⟩ [] from rfl] at hstep
      injection hstep with h1 h2
      subst h1
      intro hf
      exact (Bool.false_ne_true hf).elim

lemma scanStep_emit (s : ScanState) (c : Char) (s2 : ScanState) (e2 : List Char)
    (hstep : scanStep s c = StepOut.next s2 e2) : e2 = [] ∨ e2 = [c] := by
  obtain ⟨e, i, f, m⟩ := s
  unfold scanStep at hstep
  cases f
  · simp only [Bool.false_eq_true, if_false] at hstep
    split at hstep
    · split at hstep
      all_goals first
        | exact StepOut.noConfusion hstep
        | (injection hstep with h1 h2; subst h2; exact Or.inl rfl)
    · split_ifs at hstep
      all_goals injection hstep with h1 h2
      all_goals subst h2
      all_goals first
        | exact Or.inl rfl
        | exact Or.inr rfl
  · simp only [eq_self_iff_true, if_true] at hstep
    split at hstep
    all_goals first
      | exact StepOut.noConfusion hstep
      | (injection hstep with h1 h2; subst h2; exact Or.inl rfl)

lemma parseLoop_isSome (cs : List Char) :
    ∀ (s : ScanState) (acc : List Char), GoodState s →
      (parseLoop s cs acc).isSome = true := by
  induction cs with
  | nil => intro s acc _; rfl
  | cons c rest ih =>
      intro s acc h
      cases hstep : scanStep s c with
      | next s2 e2 =>
          simpa [parseLoop, hstep] using ih s2 (acc ++ e2) (scanStep_good s c s2 e2 h hstep)
      | stop => simp [parseLoop, hstep]
      | panic => exact absurd hstep (scanStep_not_panic s c h)

lemma parse_message_total (input translation : List Char) :
    (parse_message input translation).isSome = true :=
  parseLoop_isSome (input.drop 4) initState translation goodState_init

lemma parseLoop_frame (cs : List Char) :
    ∀ (s : ScanState) (b a : List Char),
      parseLoop s cs (b ++ a) = (parseLoop s cs a).map (fun t => b ++ t) := by
  induction cs with
  | nil => intro s b a; rfl
  | cons c rest ih =>
      intro s b a
      cases hstep : scanStep s c with
      | next s2 e2 =>
          simp only [parseLoop, hstep, List.append_assoc]
          exact ih s2 b (a ++ e2)
      | stop => simp [parseLoop, hstep]
      | panic => simp [parseLoop, hstep]

lemma parseLoop_sublist (cs : List Char) :
    ∀ (s : ScanState) (acc r : List Char), parseLoop s cs acc = some r →
      ∃ t, r = acc ++ t ∧ t.Sublist cs := by
  induction cs with
  | nil =>
      intro s acc r h
      refine ⟨[], ?_, List.nil_sublist _⟩
      simpa [parseLoop] using h.symm
  | cons c rest ih =>
      intro s acc r h
      cases hstep : scanStep s c with
      | next s2 e2 =>
          simp only [parseLoop, hstep] at h
          obtain ⟨t, ht, hsub⟩ := ih s2 (acc ++ e2) r h
          rcases scanStep_emit s c s2 e2 hstep with he | he
          · exact ⟨t, by simpa [he] using ht, hsub.cons c⟩
          · refine ⟨c :: t, ?_, hsub.cons₂ c⟩
            simpa [he, List.append_assoc] using ht
      | stop =>
          simp only [parseLoop, hstep, Option.some_inj] at h
          exact ⟨[], h.symm.trans (List.append_nil acc).symm, List.nil_sublist _⟩
      | panic => simp [parseLoop, hstep] at h

/-- Whether the scanner loop, started in state s on this character
sequence, exits via the break on the full terminator (matched at 5 and
a closing bracket seen). -/
def parseBreaks (s : ScanState) : List Char → Bool
  | [] => false
  | c :: rest =>
    match scanStep s c with
    | .next s2 _ => parseBreaks s2 rest
    | .stop => true
    | .panic => false

lemma parseLoop_append_of_breaks (cs : List Char) :
    ∀ (s : ScanState) (t acc : List Char), parseBreaks s cs = true →
      parseLoop s (cs ++ t) acc = parseLoop s cs acc := by
  induction cs with
  | nil => intro s t acc h; simp [parseBreaks] at h
  | cons c rest ih =>
      intro s t acc h
      cases hstep : scanStep s c with
      | next s2 e2 =>
          simp only [parseBreaks, hstep] at h
          simp only [List.cons_append, parseLoop, hstep]
          exact ih s2 t (acc ++ e2) h
      | stop => simp [parseLoop, hstep]
      | panic => simp [parseBreaks, hstep] at h

/-- Fuel-indexed version of the scanner loop: the outer none means the
fuel ran out before the loop finished. Used to state that the loop
terminates after consuming at most the whole input. -/
def parseFuel : Nat → ScanState → List Char → List Char → Option (Option (List Char))
  | _, _, [], acc => some (some acc)
  | 0, _, _ :: _, _ => none
  | fuel + 1, s, c :: rest, acc =>
    match scanStep s c with
    | .next s2 e2 => parseFuel fuel s2 rest (acc ++ e2)
    | .stop => some (some acc)
    | .panic => some none

lemma parseFuel_eq_parseLoop (cs : List Char) :
    ∀ (fuel : Nat) (s : ScanState) (acc : List Char), cs.length ≤ fuel →
      parseFuel fuel s cs acc = some (parseLoop s cs acc) := by
  induction cs with
  | nil => intro fuel s acc _; cases fuel <;> rfl
  | cons c rest ih =>
      intro fuel s acc hle
      cases fuel with
      | zero => simp at hle
      | succ fuel =>
          cases hstep : scanStep s c with
          | next s2 e2 =>
              simp only [parseFuel, parseLoop, hstep]
              exact ih fuel s2 (acc ++ e2) (Nat.le_of_succ_le_succ hle)
          | stop => simp [parseFuel, parseLoop, hstep]
          | panic => simp [parseFuel, parseLoop, hstep]

/-- C1: for the exact sample response body of the test of the source,
parse_message starting from an empty accumulator produces exactly the
text of the two translated segments concatenated. -/
theorem c1_parse_message_test_vector :
    parse_message "[[[\"I am not you. \",\"Mi estas ne vin.\",,,0],[\"You are not me.\",\"Vi estas ne min.\",,,0]],,\"eo\",,,,0.070792444,,[[\"eo\"],,[0.070792444],[\"eo\"]]]".toList []
      = some "I am not you. You are not me.".toList := by
  decide

/-- C2, refuted as stated: from the post-sentinel state (found_match set,
counter 0), the scanner is still in post-sentinel mode after one consumed
character, and after two characters neither has been emitted; the claimed
behaviour (mode off after one swallowed character, the second character
emitted normally) is false. -/
theorem c2_one_char_skip_counterexample :
    scanStep ⟨false, false, true, 0⟩ 'Y' = StepOut.next ⟨false, false, true, 1⟩ [] ∧
    parseLoop ⟨false, false, true, 0⟩ ('Y' :: 'Z' :: []) [] = some [] ∧
    parseLoop ⟨false, false, true, 0⟩ ('Y' :: 'Z' :: []) [] ≠ some ('Z' :: []) := by
  decide

/-- C2, amended: once post-sentinel skip mode is active (counter 0), the
scanner consumes exactly two subsequent characters without emitting
either (the counter ticks 0 to 1 on the first, and the mode turns off on
the second), so normal-mode emission resumes only with the character
after those two. -/
theorem c2_post_sentinel_skip_two_chars (s : ScanState) (c1 c2 : Char)
    (hf : s.found_match = true) (h0 : s.matched = 0) :
    scanStep s c1 = StepOut.next ⟨s.escape, s.ignore, true, 1⟩ [] ∧
    scanStep ⟨s.escape, s.ignore, true, 1⟩ c2 = StepOut.next ⟨s.escape, s.ignore, false, 0⟩ [] := by
  obtain ⟨e, i, f, m⟩ := s
  replace hf : f = true := hf
  replace h0 : m = 0 := h0
  subst hf
  subst h0
  exact ⟨rfl, rfl⟩

theorem c2_post_sentinel_skip_two_chars_witness :
    (⟨false, false, true, 0⟩ : ScanState).found_match = true ∧
    scanStep ⟨false, false, true, 0⟩ '[' = StepOut.next ⟨false, false, true, 1⟩ [] ∧
    scanStep ⟨false, false, true, 1⟩ '"' = StepOut.next ⟨false, false, false, 0⟩ [] :=
  ⟨rfl, c2_post_sentinel_skip_two_chars ⟨false, false, true, 0⟩ '[' '"' rfl rfl⟩

/-- C3: when the full terminator has been seen (skip mode, counter 5,
next character a closing bracket), the loop returns the accumulator at
once; consequently, whenever the scan of an input exits via that break,
appending an arbitrary suffix to the input never changes the result. -/
theorem c3_terminator_stops_scan (input t acc : List Char)
    (h4 : 4 ≤ input.length)
    (hb : parseBreaks initState (input.drop 4) = true) :
    parse_message (input ++ t) acc = parse_message input acc ∧
    (∀ (s : ScanState) (rest acc2 : List Char),
      s.ignore = true → s.found_match = false → s.matched = 5 →
      parseLoop s (']' :: rest) acc2 = some acc2) := by
  constructor
  · unfold parse_message
    rw [List.drop_append_of_le_length h4]
    exact parseLoop_append_of_breaks (input.drop 4) initState t acc hb
  · intro s rest acc2 hi hfm hm
    obtain ⟨e, i, f, m⟩ := s
    replace hi : i = true := hi
    replace hfm : f = false := hfm
    replace hm : m = 5 := hm
    subst hi
    subst hfm
    subst hm
    rfl

theorem c3_terminator_stops_scan_witness :
    4 ≤ "[[[\"A\",\"B\",,,0]]".toList.length ∧
    parseBreaks initState ("[[[\"A\",\"B\",,,0]]".toList.drop 4) = true ∧
    parse_message ("[[[\"A\",\"B\",,,0]]".toList ++ "GARBAGE".toList) []
      = parse_message "[[[\"A\",\"B\",,,0]]".toList [] ∧
    parse_message "[[[\"A\",\"B\",,,0]]".toList [] = some "A".toList :=
  ⟨by decide, by decide,
   (c3_terminator_stops_scan "[[[\"A\",\"B\",,,0]]".toList "GARBAGE".toList []
     (by decide) (by decide)).1,
   by decide⟩

/-- C4: on every character sequence and every starting accumulator the
extractor returns a result: it never panics, in particular the
unreachable arm of the post-sentinel match is never executed (whenever
found_match is set the counter is 0 or 1, the GoodState invariant). -/
theorem c4_never_panics (input translation : List Char) :
    ∃ r, parse_message input translation = some r :=
  Option.isSome_iff_exists.mp (parse_message_total input translation)

lemma scanStep_ignore_stays (e : Bool) (m : Nat) (c : Char) (hm5 : m ≠ 5) :
    ∃ m2, scanStep ⟨e, true, false, m⟩ c = StepOut.next ⟨e, true, false, m2⟩ [] := by
  unfold scanStep
  simp only [Bool.false_eq_true, if_false, eq_self_iff_true, if_true]
  split
  all_goals simp_all

lemma scanStep_ignore_reset (e : Bool) (m : Nat) (c : Char)
    (hm5 : m ≠ 5)
    (h0 : ¬(m = 0 ∧ c = ',')) (h1 : ¬(m = 1 ∧ c = ','))
    (h2 : ¬(m = 2 ∧ c = ',')) (h3 : ¬(m = 3 ∧ c = '0'))
    (h4 : ¬(m = 4 ∧ c = ']')) :
    scanStep ⟨e, true, false, m⟩ c = StepOut.next ⟨e, true, false, 0⟩ [] := by
  unfold scanStep
  simp only [Bool.false_eq_true, if_false, eq_self_iff_true, if_true]
  split
  all_goals simp_all

/-- C5: in skip mode with the counter away from position 5, one step
always stays in skip mode (it is only left through the position-5
transitions), and any character that does not continue the expected
sentinel subsequence resets the counter to 0, still in skip mode, with
no stop and no panic. -/
theorem c5_skip_mode_reset (s : ScanState) (c : Char)
    (hf : s.found_match = false) (hi : s.ignore = true) :
    (s.matched ≠ 5 →
      ∃ m2, scanStep s c = StepOut.next ⟨s.escape, true, false, m2⟩ []) ∧
    (s.matched ≠ 5 →
      ¬(s.matched = 0 ∧ c = ',') → ¬(s.matched = 1 ∧ c = ',') →
      ¬(s.matched = 2 ∧ c = ',') → ¬(s.matched = 3 ∧ c = '0') →
      ¬(s.matched = 4 ∧ c = ']') →
      scanStep s c = StepOut.next ⟨s.escape, true, false, 0⟩ []) := by
  obtain ⟨e, i, f, m⟩ := s
  replace hf : f = false := hf
  replace hi : i = true := hi
  subst hf
  subst hi
  exact ⟨fun hm5 => scanStep_ignore_stays e m c hm5,
         fun hm5 h0 h1 h2 h3 h4 => scanStep_ignore_reset e m c hm5 h0 h1 h2 h3 h4⟩

theorem c5_skip_mode_reset_witness :
    (⟨false, true, false, 2⟩ : ScanState).found_match = false ∧
    (⟨false, true, false, 2⟩ : ScanState).ignore = true ∧
    scanStep ⟨false, true, false, 2⟩ 'x' = StepOut.next ⟨false, true, false, 0⟩ [] :=
  ⟨rfl, rfl,
   (c5_skip_mode_reset ⟨false, true, false, 2⟩ 'x' rfl rfl).2
     (by decide) (by decide) (by decide) (by decide) (by decide) (by decide)⟩

/-- C6: in normal mode a backslash is consumed without emission and sets
escape-pending; the immediately following character, whatever it is, is
then emitted verbatim with escape-pending cleared (no interpretation of
escape codes, no entry into skip mode even for a double-quote); and on a
sample response with an escaped quote inside the translated literal the
output holds a literal quote character. -/
theorem c6_escape_restores_char (s : ScanState) (c : Char)
    (hf : s.found_match = false) (hi : s.ignore = false) (he : s.escape = false) :
    scanStep s '\\' = StepOut.next ⟨true, false, false, s.matched⟩ [] ∧
    scanStep ⟨true, false, false, s.matched⟩ c = StepOut.next ⟨false, false, false, s.matched⟩ [c] ∧
    parse_message "[[[\"She said \\\"hi\\\".\",\"x\",,,0]]".toList []
      = some "She said \"hi\".".toList := by
  obtain ⟨e, i, f, m⟩ := s
  replace hf : f = false := hf
  replace hi : i = false := hi
  replace he : e = false := he
  subst hf
  subst hi
  subst he
  refine ⟨rfl, ?_, by decide⟩
  unfold scanStep
  simp

theorem c6_escape_restores_char_witness :
    initState.found_match = false ∧ initState.ignore = false ∧ initState.escape = false ∧
    scanStep initState '\\' = StepOut.next ⟨true, false, false, 0⟩ [] ∧
    scanStep ⟨true, false, false, 0⟩ '"' = StepOut.next ⟨false, false, false, 0⟩ ['"'] :=
  ⟨rfl, rfl, rfl,
   (c6_escape_restores_char initState '"' rfl rfl rfl).1,
   (c6_escape_restores_char initState '"' rfl rfl rfl).2.1⟩

/-- C7: for every finite input the extractor terminates after at most
one step per character: with any fuel bound at least the length of the
input past the prefix, the fueled loop finishes (never hangs), agrees
with the unfueled extractor, and the result is a value, not an error. -/
theorem c7_terminates_within_input (input acc : List Char) (fuel : Nat)
    (hfuel : (input.drop 4).length ≤ fuel) :
    parseFuel fuel initState (input.drop 4) acc = some (parse_message input acc) ∧
    (parse_message input acc).isSome = true :=
  ⟨parseFuel_eq_parseLoop (input.drop 4) fuel initState acc hfuel,
   parse_message_total input acc⟩

theorem c7_terminates_within_input_witness :
    ("[[[\"Hel".toList.drop 4).length ≤ 10 ∧
    (parseFuel 10 initState ("[[[\"Hel".toList.drop 4) []
        = some (parse_message "[[[\"Hel".toList []) ∧
      (parse_message "[[[\"Hel".toList []).isSome = true) ∧
    parse_message "[[[\"Hel".toList [] = some "Hel".toList :=
  ⟨by decide, c7_terminates_within_input "[[[\"Hel".toList [] 10 (by decide), by decide⟩

/-- C8: the first four characters are discarded without inspection: any
two inputs of length at least 4 that agree from the fifth character on
give identical results, whatever their first four characters are. -/
theorem c8_prefix_discarded (x y acc : List Char)
    (_hx : 4 ≤ x.length) (_hy : 4 ≤ y.length) (h : x.drop 4 = y.drop 4) :
    parse_message x acc = parse_message y acc := by
  unfold parse_message
  rw [h]

theorem c8_prefix_discarded_witness :
    4 ≤ "abcd!x".toList.length ∧ 4 ≤ "]]]]!x".toList.length ∧
    parse_message "abcd!x".toList [] = parse_message "]]]]!x".toList [] ∧
    parse_message "abcd!x".toList [] = some "!x".toList :=
  ⟨by decide, by decide,
   c8_prefix_discarded "abcd!x".toList "]]]]!x".toList []
     (by decide) (by decide) (by decide),
   by decide⟩

/-- C9: the extractor only ever appends to the caller-supplied
accumulator: the result on initial contents b is exactly b followed by
the text produced from an empty accumulator (and a panic is a panic
regardless of the initial contents). -/
theorem c9_accumulator_append_only (input b : List Char) :
    parse_message input b = (parse_message input []).map (fun t => b ++ t) := by
  unfold parse_message
  calc parseLoop initState (input.drop 4) b
      = parseLoop initState (input.drop 4) (b ++ []) := by rw [List.append_nil]
    _ = (parseLoop initState (input.drop 4) []).map (fun t => b ++ t) :=
        parseLoop_frame (input.drop 4) initState b []

/-- C10: the text produced from an empty accumulator is a subsequence of
the characters of the input after the discarded four-character prefix:
every emitted character occurs verbatim in the input in input order, and
the output length never exceeds the input length minus 4. -/
theorem c10_output_subsequence (input r : List Char)
    (h : parse_message input [] = some r) :
    r.Sublist (input.drop 4) ∧ r.length ≤ input.length - 4 := by
  obtain ⟨t, ht, hsub⟩ := parseLoop_sublist (input.drop 4) initState [] r h
  rw [List.nil_append] at ht
  subst ht
  refine ⟨hsub, ?_⟩
  calc r.length ≤ (input.drop 4).length := hsub.length_le
    _ = input.length - 4 := List.length_drop 4 input

theorem c10_output_subsequence_witness :
    parse_message "[[[\"Hello\",\"B\",,,0]]".toList [] = some "Hello".toList ∧
    ("Hello".toList.Sublist ("[[[\"Hello\",\"B\",,,0]]".toList.drop 4) ∧
      "Hello".toList.length ≤ "[[[\"Hello\",\"B\",,,0]]".toList.length - 4) :=
  ⟨by decide,
   c10_output_subsequence "[[[\"Hello\",\"B\",,,0]]".toList "Hello".toList (by decide)⟩
